import Mathlib

/-!
Verification development for the VecTank repository (file `src/vectank/tank.py`,
`src/vectank/store.py`, `src/vectank/core.py`).

The shallow embedding below translates the shared-memory tank engine into pure
Lean functions.  Modelling conventions:

* `float32` values are modelled as exact rationals (`ℚ`); the `astype` casts of
  the source are modelled as the identity.
* The pickle serializer is opaque in the specified design, so every operation
  that publishes metadata is parameterised by an arbitrary size measure
  `sz : MetaDict → Nat`, standing for `len(pickle.dumps(metadata))`.
* A tank object carries both its in-process dict `metadata` and the decoded
  content `published` of the shared-memory metadata region; the pickle
  round-trip through the region is modelled as the identity on the mapping.
* Python `dict` is modelled as an insertion-ordered association list;
  assigning to an existing key keeps its position, a new key is appended.
* Python exceptions are modelled with `Except Err`; since the source mutates
  the tank in place, every operation returns the post-call tank state even
  when it raises (partial mutations are preserved, as in the source).
* `str(int)` / `int(str)` are modelled by `natToDecimal` / `parsePyInt`
  (ASCII decimal with Python's sign, whitespace and underscore rules).
-/

namespace VecTankModel

/-- A vector: one row of the shared float32 buffer, as exact rationals. -/
abbrev Vec := List ℚ

/-- A user metadata value: a Python dict from field names to (string) values,
as an insertion-ordered association list. -/
abbrev Meta := List (String × String)

/-- The `params` bookkeeping entry stored under the reserved `"params"` key by
`VecTank.__init__` (tank.py lines 55-63). -/
structure Params where
  dim : Nat
  dtypeName : String
  default_sim_method : String
  max_capacity : Nat
  persist : Bool
  tank_name : String
  meta_shm_single_size : Nat
deriving DecidableEq

/-- A value stored in the tank's metadata dict: either a user metadata dict or
the reserved configuration record. -/
inductive MetaVal where
  | user (m : Meta)
  | pconf (p : Params)
deriving DecidableEq

/-- The tank's metadata dict (`self.metadata` in tank.py). -/
abbrev MetaDict := List (String × MetaVal)

/-- `d.get(k)` on a Python dict (first match; keys are unique in a real dict). -/
def pyGet {α : Type} (d : List (String × α)) (k : String) : Option α :=
  match d with
  | [] => none
  | (k1, v) :: rest => if k1 = k then some v else pyGet rest k

/-- `d[k] = v` on a Python dict: overwrite in place if present, else append. -/
def pySet {α : Type} (d : List (String × α)) (k : String) (v : α) :
    List (String × α) :=
  match d with
  | [] => [(k, v)]
  | (k1, v1) :: rest =>
    if k1 = k then (k, v) :: rest else (k1, v1) :: pySet rest k v

/-- Fuel-driven digit extraction (structurally recursive so that concrete
instances evaluate inside the kernel). -/
def natDigitsAux : Nat → Nat → List Char
  | 0, _ => []
  | _ + 1, 0 => []
  | fuel + 1, n + 1 =>
    natDigitsAux fuel ((n + 1) / 10) ++ [Char.ofNat (48 + (n + 1) % 10)]

/-- The decimal digits of `n` (empty for 0), least significant digit last. -/
def natDigits (n : Nat) : List Char := natDigitsAux n n

/-- Python `str(n)` for a non-negative integer. -/
def natToDecimal (n : Nat) : String :=
  if n = 0 then "0" else String.mk (natDigits n)

/-- Python `str.lower()` (structurally recursive so concrete instances
evaluate inside the kernel). -/
def pyLower (s : String) : String := String.mk (s.data.map Char.toLower)

/-- Python whitespace accepted around an `int()` literal. -/
def isPySpace (c : Char) : Bool :=
  c = ' ' || c = '\t' || c = '\n' || c = '\r' || c = '\x0b' || c = '\x0c'

/-- A valid Python digit run: digits with single underscores strictly between
digits (`digitpart` of the Python integer-literal grammar). -/
def digitsUnd : List Char → Bool
  | [] => false
  | [c] => c.isDigit
  | c :: c2 :: rest =>
    if c2 = '_' then c.isDigit && digitsUnd rest
    else c.isDigit && digitsUnd (c2 :: rest)

/-- Numeric value of a digit run (underscores skipped). -/
def digitsVal (cs : List Char) : Nat :=
  (cs.filter (fun c => c ≠ '_')).foldl (fun a c => a * 10 + (c.toNat - 48)) 0

/-- Sign handling of a (whitespace-stripped) Python integer literal. -/
def parseDigitsSigned : List Char → Option Int
  | [] => none
  | c :: rest =>
    if c = '+' then
      if digitsUnd rest then some (digitsVal rest : Int) else none
    else if c = '-' then
      if digitsUnd rest then some (-(digitsVal rest : Int)) else none
    else if digitsUnd (c :: rest) then some (digitsVal (c :: rest) : Int)
    else none

/-- Python `int(s)`: `none` models the `ValueError` raised on a malformed
literal. -/
def parsePyInt (s : String) : Option Int :=
  parseDigitsSigned (((s.data.dropWhile isPySpace).reverse.dropWhile isPySpace)).reverse

/-- The error kinds raised by the engine, named after the spec taxonomy (§7).
`capacityExceeded` and `serializationOverflow` are both `MemoryError` in the
source, distinguished by message; `invalidDimension`, `valueError` and
`unsupportedMetric` are `ValueError`s; `keyError` / `typeError` match the
Python exception classes. -/
inductive Err where
  | capacityExceeded
  | serializationOverflow
  | invalidDimension
  | keyError
  | valueError
  | typeError
  | unsupportedMetric
deriving DecidableEq

instance exceptDecEq {ε α : Type} [DecidableEq ε] [DecidableEq α] :
    DecidableEq (Except ε α) := fun x y =>
  match x, y with
  | .ok a, .ok b =>
    if h : a = b then .isTrue (h ▸ rfl)
    else .isFalse (fun e => h (by injection e))
  | .ok _, .error _ => .isFalse (fun e => Except.noConfusion e)
  | .error _, .ok _ => .isFalse (fun e => Except.noConfusion e)
  | .error a, .error b =>
    if h : a = b then .isTrue (h ▸ rfl)
    else .isFalse (fun e => h (by injection e))

/-- A `VecTank` object together with the decoded content of its two shared
regions: `vectors` is the `(max_capacity, dim)` float buffer, `metadata` the
in-process dict, `published` the mapping last written to the metadata region. -/
structure Tank where
  tank_name : String
  dim : Nat
  max_capacity : Nat
  persist : Bool
  sim_method : String
  single_meta_size : Nat
  vectors : List Vec
  metadata : MetaDict
  published : MetaDict
deriving DecidableEq

/-- The `params` record `VecTank.__init__` builds from a tank's fields. -/
def paramsOf (t : Tank) : Params :=
  { dim := t.dim
    dtypeName := "float32"
    default_sim_method := t.sim_method
    max_capacity := t.max_capacity
    persist := t.persist
    tank_name := t.tank_name
    meta_shm_single_size := t.single_meta_size }

/-- The metadata dict right after `__init__`: only the `params` entry. -/
def initMetadata (p : Params) : MetaDict := [("params", MetaVal.pconf p)]

/-- A freshly created tank (constructor followed by `create_shared_memory`,
with the initial publish assumed to fit). -/
def mkTank (p : Params) : Tank :=
  { tank_name := p.tank_name
    dim := p.dim
    max_capacity := p.max_capacity
    persist := p.persist
    sim_method := p.default_sim_method
    single_meta_size := p.meta_shm_single_size
    vectors := List.replicate p.max_capacity (List.replicate p.dim 0)
    metadata := initMetadata p
    published := initMetadata p }

/-- `len(self)` (tank.py line 434): number of metadata entries minus the
reserved `params` entry. -/
def lenTank (t : Tank) : Nat := t.metadata.length - 1

/-- `self._meta_shm_size = single_meta_size * max_capacity` (tank.py line 80). -/
def metaShmSize (t : Tank) : Nat := t.single_meta_size * t.max_capacity

/-- `VecTank._update_shared_metadata` (tank.py lines 86-95): serialize
`metadata` into the shared region, raising `MemoryError` (modelled as
`serializationOverflow`) when the blob exceeds the region, in which case the
region keeps its previous content. -/
def updateSharedMetadata (sz : MetaDict → Nat) (t : Tank) :
    Tank × Except Err Unit :=
  if sz t.metadata > metaShmSize t then (t, .error .serializationOverflow)
  else ({ t with published := t.metadata }, .ok ())

/-- `VecTank.add_vector` (tank.py lines 213-231).  Note the source writes the
vector row and the dict entry before `_update_shared_metadata` runs its
overflow check. -/
def addVector (sz : MetaDict → Nat) (t : Tank) (vector : Vec) (meta : Meta) :
    Tank × Except Err String :=
  let num := lenTank t
  if num ≥ t.max_capacity then (t, .error .capacityExceeded)
  else if vector.length ≠ t.dim then (t, .error .invalidDimension)
  else
    let key := natToDecimal (num + 1)
    let t1 : Tank := { t with
      vectors := t.vectors.set num vector
      metadata := pySet t.metadata key (MetaVal.user meta) }
    match updateSharedMetadata sz t1 with
    | (t2, .ok _) => (t2, .ok key)
    | (t2, .error e) => (t2, .error e)

/-- `VecTank.add_vectors` (tank.py lines 233-254).  `keys = none` models the
default `keys=None` (auto-numbered keys). -/
def addVectors (sz : MetaDict → Nat) (t : Tank) (vectors : List Vec)
    (metadata_list : List Meta) (keys : Option (List String)) :
    Tank × Except Err (List String) :=
  let n := vectors.length
  if vectors.any (fun v => v.length ≠ t.dim) then (t, .error .invalidDimension)
  else if metadata_list.length ≠ n then (t, .error .valueError)
  else if (match keys with | some ks => ks.length != n | none => false) then
    (t, .error .valueError)
  else
    let num := lenTank t
    if num + n > t.max_capacity then (t, .error .capacityExceeded)
    else
      let newKeys := (List.range n).map (fun i =>
        match keys with
        | none => natToDecimal (num + i + 1)
        | some ks => ks.getD i "")
      let t1 := (List.range n).foldl (fun acc i =>
        { acc with
          vectors := acc.vectors.set (num + i) (vectors.getD i [])
          metadata := pySet acc.metadata (newKeys.getD i "")
            (MetaVal.user (metadata_list.getD i [])) }) t
      match updateSharedMetadata sz t1 with
      | (t2, .ok _) => (t2, .ok newKeys)
      | (t2, .error e) => (t2, .error e)

/-- Row-wise dot product (`np.dot` of a row with the query). -/
def dotQ (v w : Vec) : ℚ := (v.zip w).foldl (fun a p => a + p.1 * p.2) 0

/-- The `1e-8` guard of `calc_cosine` (core.py line 67). -/
def epsQ : ℚ := 1 / 100000000

/-- `calc_inner` (core.py lines 33-44): dot product per row. -/
def calc_inner (vectors : List Vec) (query : Vec) : List ℚ :=
  vectors.map (fun v => dotQ v query)

/-- `calc_cosine` (core.py lines 49-67).  The L2 norm is `sq` of the dot
square, where `sq` stands for the (non-rational) float `sqrt`; the claims
settled here do not depend on its values. -/
def calc_cosine (sq : ℚ → ℚ) (vectors : List Vec) (query : Vec) : List ℚ :=
  vectors.map (fun v =>
    dotQ v query / (sq (dotQ v v) * sq (dotQ query query) + epsQ))

/-- Row-wise difference, for `calc_euclidean`. -/
def subQ (v w : Vec) : Vec := (v.zip w).map (fun p => p.1 - p.2)

/-- `calc_euclidean` (core.py lines 72-84): negated distance per row. -/
def calc_euclidean (sq : ℚ → ℚ) (vectors : List Vec) (query : Vec) : List ℚ :=
  vectors.map (fun v => -(sq (dotQ (subQ v query) (subQ v query))))

/-- The `SIM_METHODS` registry (core.py lines 89-93), keyed by lower-case
method name. -/
def SIM_METHODS (sq : ℚ → ℚ) (s : String) :
    Option (List Vec → Vec → List ℚ) :=
  if s = "inner" then some calc_inner
  else if s = "cosine" then some (calc_cosine sq)
  else if s = "euclidean" then some (calc_euclidean sq)
  else none

/-- Strictly larger score first, ties in ascending index order: the order
of a stable descending sort of the scores.  Used only to build one
admissible `argsort` implementation below; the library contract
(`ArgsortSpec`) does not fix any tie order. -/
def argRel (s : List ℚ) (a b : Nat) : Prop :=
  s.getD a 0 > s.getD b 0 ∨ (s.getD a 0 = s.getD b 0 ∧ a ≤ b)

instance argRelDecidable (s : List ℚ) : DecidableRel (argRel s) := fun a b => by
  unfold argRel
  infer_instance

instance argRelTotal (s : List ℚ) : IsTotal Nat (argRel s) := by
  constructor
  intro a b
  rcases lt_trichotomy (s.getD a 0) (s.getD b 0) with h | h | h
  · exact Or.inr (Or.inl h)
  · rcases Nat.le_total a b with hab | hab
    · exact Or.inl (Or.inr ⟨h, hab⟩)
    · exact Or.inr (Or.inr ⟨h.symm, hab⟩)
  · exact Or.inl (Or.inl h)

instance argRelTrans (s : List ℚ) : IsTrans Nat (argRel s) := by
  constructor
  intro a b c hab hbc
  rcases hab with h1 | ⟨h1, h1i⟩
  · rcases hbc with h2 | ⟨h2, _⟩
    · exact Or.inl (h2.trans h1)
    · exact Or.inl (h2 ▸ h1)
  · rcases hbc with h2 | ⟨h2, h2i⟩
    · exact Or.inl (h1 ▸ h2)
    · exact Or.inr ⟨h1.trans h2, h1i.trans h2i⟩

/-- One admissible `argsort` implementation: indices by descending score
with ties by ascending index (the order numpy's insertion-sort path yields
on short arrays).  It is used only to instantiate concrete scenarios;
nothing here assumes the library sorts this way in general. -/
def argsortDesc (s : List ℚ) : List Nat :=
  List.insertionSort (argRel s) (List.range s.length)

/-- The documented contract of `np.argsort(-scores)` under the source's
default `kind='quicksort'` (an unstable introsort): the result is a
permutation of the row indices `0..n-1` ordered by non-strictly descending
score.  The relative order of equal scores is implementation-defined (it
varies with the array length and the installed numpy version) and is
deliberately left unspecified. -/
def ArgsortSpec (argsort : List ℚ → List Nat) : Prop :=
  ∀ s : List ℚ, (argsort s).Perm (List.range s.length) ∧
    (argsort s).Pairwise (fun a b => s.getD a 0 ≥ s.getD b 0)

/-- `VecTank.search` (tank.py lines 256-276), parameterised by the float
square-root stand-in `sq` and by `argsort`, the opaque model of
`np.argsort(-scores)`: the source (tank.py line 270) uses numpy's default
unstable sort, whose tie behavior is implementation-defined, so the
permutation function is a parameter of the embedding rather than a fixed
definition. -/
def search (sq : ℚ → ℚ) (argsort : List ℚ → List Nat) (t : Tank)
    (query : Vec) (top_k : Nat) (sim_method : Option String) :
    Tank × Except Err (List (String × ℚ × Vec × Option MetaVal)) :=
  if query.length ≠ t.dim then (t, .error .invalidDimension)
  else
    let num := lenTank t
    if num = 0 then (t, .ok [])
    else
      let method := sim_method.getD t.sim_method
      match SIM_METHODS sq (pyLower method) with
      | none => (t, .error .unsupportedMetric)
      | some f =>
        let data := t.vectors.take num
        let scores := f data query
        let idxs := (argsort scores).take top_k
        (t, .ok (idxs.map (fun i =>
          (natToDecimal (i + 1), scores.getD i 0, t.vectors.getD i [],
            pyGet t.metadata (natToDecimal (i + 1))))))

/-- `VecTank.update_vector` (tank.py lines 278-289).  `int(key)` failure is a
`ValueError`; an out-of-range index is a `KeyError`; the new metadata is
stored under the key string exactly as given. -/
def updateVector (sz : MetaDict → Nat) (t : Tank) (key : String)
    (new_vector : Vec) (new_metadata : Option Meta) : Tank × Except Err Unit :=
  match parsePyInt key with
  | none => (t, .error .valueError)
  | some k =>
    let idx : Int := k - 1
    if idx < 0 ∨ idx ≥ (lenTank t : Int) then (t, .error .keyError)
    else if new_vector.length ≠ t.dim then (t, .error .invalidDimension)
    else
      let t1 : Tank := { t with vectors := t.vectors.set idx.toNat new_vector }
      let t2 : Tank :=
        match new_metadata with
        | some nm => { t1 with metadata := pySet t1.metadata key (MetaVal.user nm) }
        | none => t1
      match updateSharedMetadata sz t2 with
      | (t3, .ok _) => (t3, .ok ())
      | (t3, .error e) => (t3, .error e)

/-- The conditions argument of `filter_by_metadata`: `cnone` is Python `None`,
`cpred` an opaque callable, `cdict` an equality map, `cother` any other value
(the `TypeError` path). -/
inductive Conditions where
  | cnone
  | cpred (f : MetaVal → Bool)
  | cdict (m : List (String × String))
  | cother

/-- `meta.get(k)` inside the equality-map branch.  Stored user metadata is a
dict of string fields; the reserved configuration record has no string-valued
lookup here (its entry is skipped by key before this is reached). -/
def metaGetStr (v : MetaVal) (k : String) : Option String :=
  match v with
  | .user m => pyGet m k
  | .pconf _ => none

/-- Whether one metadata value passes a `cdict` equality map
(`all(meta.get(k) == v for k, v in conditions.items())`). -/
def dictMatches (m : List (String × String)) (v : MetaVal) : Bool :=
  m.all (fun p => metaGetStr v p.1 == some p.2)

/-- The iteration of `filter_by_metadata` over the metadata dict: skip the
`params` key, then test or raise depending on the conditions value.  The
`TypeError` for an unsupported conditions value fires at the first non-params
entry, as in the source (`cnone` is handled before the loop). -/
def filterLoop (conditions : Conditions) : MetaDict → Except Err (List String)
  | [] => .ok []
  | (k, v) :: rest =>
    if k = "params" then filterLoop conditions rest
    else
      match conditions with
      | .cpred f =>
        if f v then
          match filterLoop (.cpred f) rest with
          | .ok l => .ok (k :: l)
          | .error e => .error e
        else filterLoop (.cpred f) rest
      | .cdict m =>
        if dictMatches m v then
          match filterLoop (.cdict m) rest with
          | .ok l => .ok (k :: l)
          | .error e => .error e
        else filterLoop (.cdict m) rest
      | _ => .error .typeError

/-- `VecTank.filter_by_metadata` (tank.py lines 292-309). -/
def filterByMetadata (t : Tank) (conditions : Conditions) :
    Tank × Except Err (List String) :=
  match conditions with
  | .cnone => (t, .ok [])
  | c => (t, filterLoop c t.metadata)

/-- The in-place row shift of `delete` (tank.py lines 320-323): rows
`idx..count-2` take the following row, row `count-1` is zero-filled, rows
outside the live range stay.  Used with `idx < count ≤ vs.length`. -/
def shiftRows (vs : List Vec) (idx count dim : Nat) : List Vec :=
  vs.take idx ++ (vs.drop (idx + 1)).take (count - 1 - idx) ++
    [List.replicate dim 0] ++ vs.drop count

/-- The metadata rebuild loop of `delete` (tank.py lines 330-339): iterate the
old dict, skip the `params` and `count` keys and the deleted 1-indexed key,
renumber the survivors sequentially from `nidx + 1`.  `none` models the
uncaught `ValueError` of `int(old_key)` on a non-numeric key. -/
def deleteRebuild (delKey : Int) : MetaDict → Nat → Option MetaDict
  | [], _ => some []
  | (k, v) :: rest, nidx =>
    if k = "params" ∨ k = "count" then deleteRebuild delKey rest nidx
    else
      match parsePyInt k with
      | none => none
      | some kv =>
        if kv = delKey then deleteRebuild delKey rest nidx
        else
          match deleteRebuild delKey rest (nidx + 1) with
          | none => none
          | some tail => some ((natToDecimal (nidx + 1), v) :: tail)

/-- `VecTank.delete` (tank.py lines 311-343).  The vector shift happens before
the metadata rebuild, so a failure inside the rebuild leaves the rows already
shifted (the source builds `new_meta` locally and only assigns it at the
end). -/
def delete (sz : MetaDict → Nat) (t : Tank) (key : String) :
    Tank × Except Err Unit :=
  match parsePyInt key with
  | none => (t, .error .valueError)
  | some k =>
    let idx : Int := k - 1
    let count := lenTank t
    if idx < 0 ∨ idx ≥ (count : Int) then (t, .error .keyError)
    else
      let t1 : Tank :=
        { t with vectors := shiftRows t.vectors idx.toNat count t.dim }
      match pyGet t1.metadata "params" with
      | none => (t1, .error .keyError)
      | some pv =>
        match deleteRebuild (idx + 1) t1.metadata 0 with
        | none => (t1, .error .valueError)
        | some entries =>
          let t2 : Tank := { t1 with metadata := ("params", pv) :: entries }
          match updateSharedMetadata sz t2 with
          | (t3, .ok _) => (t3, .ok ())
          | (t3, .error e) => (t3, .error e)

/-- `VecTank.delete_keys` (tank.py lines 346-381).  A `ValueError` from
`int(k)` is converted to a `KeyError`; any out-of-range index raises
`KeyError` before any mutation; on success the original argument list is
returned unchanged. -/
def deleteKeys (sz : MetaDict → Nat) (t : Tank) (keys : List String) :
    Tank × Except Err (List String) :=
  match keys.mapM parsePyInt with
  | none => (t, .error .keyError)
  | some ks =>
    let delIdxs : List Int := ks.map (fun k => k - 1)
    let count := lenTank t
    if delIdxs.any (fun i => i < 0 || (count : Int) ≤ i) then
      (t, .error .keyError)
    else
      let keepIdxs : List Nat := (List.range count).filter
        (fun i => !(delIdxs.contains (Int.ofNat i)))
      let newCount := keepIdxs.length
      let newVecs := keepIdxs.map (fun i => t.vectors.getD i []) ++
        List.replicate (count - newCount) (List.replicate t.dim 0) ++
        t.vectors.drop count
      let t1 : Tank := { t with vectors := newVecs }
      match pyGet t1.metadata "params" with
      | none => (t1, .error .keyError)
      | some pv =>
        match keepIdxs.mapM (fun oi => pyGet t1.metadata (natToDecimal (oi + 1))) with
        | none => (t1, .error .keyError)
        | some vals =>
          let entries := (List.range newCount).map (fun i =>
            (natToDecimal (i + 1), vals.getD i (MetaVal.user [])))
          let t2 : Tank := { t1 with metadata := ("params", pv) :: entries }
          match updateSharedMetadata sz t2 with
          | (t3, .ok _) => (t3, .ok keys)
          | (t3, .error e) => (t3, .error e)

/-- `VecTank.clear` (tank.py lines 383-389): zero the whole buffer, keep only
the `params` entry (`metadata.get("params", {})` falls back to an empty user
dict when it is absent). -/
def clear (sz : MetaDict → Nat) (t : Tank) : Tank × Except Err Unit :=
  let t1 : Tank := { t with
    vectors := t.vectors.map (fun v => List.replicate v.length 0)
    metadata := [("params", (pyGet t.metadata "params").getD (MetaVal.user []))] }
  match updateSharedMetadata sz t1 with
  | (t2, .ok _) => (t2, .ok ())
  | (t2, .error e) => (t2, .error e)

/-- `VecTank._parse_params` (tank.py lines 125-146): copy the configuration
record back into the tank's fields. -/
def applyParams (t : Tank) (p : Params) : Tank :=
  { t with
    dim := p.dim
    sim_method := p.default_sim_method
    max_capacity := p.max_capacity
    persist := p.persist
    tank_name := p.tank_name
    single_meta_size := p.meta_shm_single_size }

/-- The two-part persistence record of one tank: the `.npz` live-row matrix
and the `.pkl` metadata mapping. -/
structure SavedPair where
  npz : List Vec
  pkl : MetaDict
deriving DecidableEq

/-- The `save` branch of `TankStore.event_loop` (store.py lines 182-206):
re-read the published metadata, re-apply its `params`, then write the live
rows (`tank.vectors[:len(tank)]`) and the full metadata mapping.  `none`
models the caught failure when the published mapping lacks a usable
configuration record (no files are written); the first component is the
store-side tank object after the call (its dict was re-read in place). -/
def savePair (t : Tank) : Tank × Option SavedPair :=
  let t1 : Tank := { t with metadata := t.published }
  match pyGet t1.metadata "params" with
  | some (.pconf p) =>
    let t2 := applyParams t1 p
    (t2, some { npz := t2.vectors.take (lenTank t2), pkl := t2.metadata })
  | _ => (t1, none)

/-- The default construction parameters of `VecTank(tank_name)`
(tank.py line 34): dim 1200, capacity 100000, slot size 4096, no persistence,
metric `COSINE`. -/
def defaultCtorParams (name : String) : Params :=
  { dim := 1200
    dtypeName := "float32"
    default_sim_method := "COSINE"
    max_capacity := 100000
    persist := false
    tank_name := name
    meta_shm_single_size := 4096 }

/-- The tank `_load_all_tanks` reconstructs for one snapshot: shape taken
from the recorded `params`, the recreated zero-filled buffer with its first
rows replaced by the saved matrix, and the saved metadata mapping written to
(and re-read from) the metadata region. -/
def freshRestored (p : Params) (md : MetaDict) (rows : List Vec) : Tank :=
  { tank_name := p.tank_name
    dim := p.dim
    max_capacity := p.max_capacity
    persist := p.persist
    sim_method := p.default_sim_method
    single_meta_size := p.meta_shm_single_size
    vectors := rows ++ List.replicate (p.max_capacity - rows.length)
      (List.replicate p.dim 0)
    metadata := md
    published := md }

/-- One prefix of `TankStore._load_all_tanks` (store.py lines 92-141),
given the contents of the `.npz` and `.pkl` files when they exist.  A prefix
is only scanned when the `.npz` exists; a missing `.pkl` leaves
`create_shared_memory` uncalled so the vector replay raises (caught, tank
skipped); a `.pkl` without a usable `params` record, a metadata blob larger
than the region, or a row matrix that does not fit the recreated buffer all
raise inside the per-tank `try` and skip the tank.  The recreated buffer is
zero-filled and its first rows replaced by the saved matrix.  The first size
check is the initial publish of the constructor-default metadata performed by
`create_shared_memory` against the region sized from the parsed `params`. -/
def restoreTank (sz : MetaDict → Nat) (name : String)
    (npz : Option (List Vec)) (pkl : Option MetaDict) : Option Tank :=
  match npz, pkl with
  | some rows, some md =>
    (match pyGet md "params" with
    | some (.pconf p) =>
      if sz (initMetadata (defaultCtorParams name)) >
          p.meta_shm_single_size * p.max_capacity then none
      else if sz md > p.meta_shm_single_size * p.max_capacity then none
      else if rows.length ≤ p.max_capacity ∧ (∀ r ∈ rows, r.length = p.dim) then
        some (freshRestored p md rows)
      else none
    | _ => none)
  | _, _ => none

/-- The tank registry of a `TankStore`. -/
structure Store where
  tanks : List (String × Tank)
deriving DecidableEq

/-- The ordered `(key, vector, metadata)` triples of a tank's live range. -/
def triples (t : Tank) : List (String × Vec × MetaVal) :=
  (List.range (lenTank t)).map (fun i =>
    (natToDecimal (i + 1), t.vectors.getD i [],
      (pyGet t.metadata (natToDecimal (i + 1))).getD (MetaVal.user [])))

/-- Helper for `pySplitComma`: accumulate the current field in reverse. -/
def splitCommaAux : List Char → List Char → List String
  | [], acc => [String.mk acc.reverse]
  | c :: rest, acc =>
    if c = ',' then String.mk acc.reverse :: splitCommaAux rest []
    else splitCommaAux rest (c :: acc)

/-- Python `s.split(',')` (structurally recursive so concrete instances
evaluate inside the kernel): the empty string yields `[""]`. -/
def pySplitComma (s : String) : List String := splitCommaAux s.data []

/-- Bytes of an ASCII command string, for the command-channel buffer. -/
def strBytes (s : String) : List Nat := s.data.map Char.toNat

/-- Decode the command slot up to the first zero byte
(`bytes(buffer).split(b'\x00')[0].decode()`, store.py lines 156-157). -/
def decodeBuf (buf : List Nat) : String :=
  String.mk ((buf.takeWhile (fun b => b ≠ 0)).map Char.ofNat)

/-- The `create` handler of the event loop (store.py lines 162-181).  Every
failure inside it — malformed arity, unparseable integers, the missing 7th
field, a duplicate name, an invalid region size, or an overflowing initial
publish — is caught by its `except`, leaving the registry unchanged. -/
def handleCreate (sz : MetaDict → Nat) (store : Store) (parts : List String) :
    Store :=
  if parts.length ≥ 6 then
    match parsePyInt (parts.getD 2 ""), parsePyInt (parts.getD 4 ""),
        parsePyInt (parts.getD 5 ""), parts.get? 6 with
    | some dim, some cap, some single, some sim =>
      let name := parts.getD 1 ""
      let persist := pyLower (parts.getD 3 "") = "true"
      if (pyGet store.tanks name).isSome then store
      else if dim ≤ 0 ∨ cap ≤ 0 ∨ single ≤ 0 then store
      else
        let p : Params := { dim := dim.toNat
                            dtypeName := "float32"
                            default_sim_method := sim
                            max_capacity := cap.toNat
                            persist := persist
                            tank_name := name
                            meta_shm_single_size := single.toNat }
        if sz (initMetadata p) > single.toNat * cap.toNat then store
        else { tanks := store.tanks ++ [(name, mkTank p)] }
    | _, _, _, _ => store
  else store

/-- The `save` handler of the event loop (store.py lines 182-206); its file
output is `savePair`, the registry keeps the (possibly re-read) tank object. -/
def handleSave (store : Store) (parts : List String) : Store :=
  if parts.length ≥ 2 then
    match pyGet store.tanks (parts.getD 1 "") with
    | some tank => { tanks := pySet store.tanks (parts.getD 1 "") (savePair tank).1 }
    | none => store
  else store

/-- The `log` handler of the event loop (store.py lines 207-214).  It runs
with no surrounding `try`: when the named tank is absent, `tanks.get` returns
`None` and the attribute access raises; when the re-read metadata lacks a
usable `params` record, `_parse_params` raises.  `none` models the uncaught
exception escaping the loop. -/
def handleLog (store : Store) (parts : List String) : Option Store :=
  if parts.length ≥ 3 then
    match pyGet store.tanks (parts.getD 1 "") with
    | none => none
    | some tank =>
      let tank1 : Tank := { tank with metadata := tank.published }
      match pyGet tank1.metadata "params" with
      | some (.pconf p) =>
        some { tanks := pySet store.tanks (parts.getD 1 "") (applyParams tank1 p) }
      | _ => none
  else some store

/-- One iteration of `TankStore.event_loop` (store.py lines 153-217): if the
first buffer byte is zero nothing happens; otherwise the command is decoded,
dispatched by verb, and the whole buffer is cleared to zero — unless an
exception escapes a handler (`none`), which terminates the loop with the
buffer left as it was. -/
def eventStep (sz : MetaDict → Nat) (store : Store) (buf : List Nat) :
    Option (Store × List Nat) :=
  if buf.getD 0 0 = 0 then some (store, buf)
  else
    let parts := pySplitComma (decodeBuf buf)
    let verb := pyLower (parts.getD 0 "")
    let store1 : Option Store :=
      if verb = "create" then some (handleCreate sz store parts)
      else if verb = "save" then some (handleSave store parts)
      else if verb = "log" then handleLog store parts
      else some store
    match store1 with
    | some s => some (s, List.replicate buf.length 0)
    | none => none

/-- The dense numbered segment of a tank's metadata: entries keyed
`a+1, a+2, ...` in insertion order, holding user metadata. -/
def numberedFrom : Nat → List Meta → MetaDict
  | _, [] => []
  | a, m :: ms => (natToDecimal (a + 1), MetaVal.user m) :: numberedFrom (a + 1) ms

/-- The numbered entries `"1".."n"` of a well-formed tank. -/
def numbered (ms : List Meta) : MetaDict := numberedFrom 0 ms

/-- A tank with its buffer, dict and published region replaced. -/
def withData (t : Tank) (vs : List Vec) (md pub : MetaDict) : Tank :=
  { t with vectors := vs, metadata := md, published := pub }

/-- Trivial size measure: every publish fits. -/
def szZero (_ : MetaDict) : Nat := 0

/-- Size measure charging three units per entry, for overflow scenarios. -/
def szBig (d : MetaDict) : Nat := 3 * d.length

/-- Parameters of the overflow scenario: dimension 1, capacity 4, one size
unit per record, so the region budget is 4 while two entries measure 6. -/
def c2Params : Params :=
  { dim := 1
    dtypeName := "float32"
    default_sim_method := "COSINE"
    max_capacity := 4
    persist := false
    tank_name := "t2"
    meta_shm_single_size := 1 }

/-- A fresh tank for the overflow scenario. -/
def c2Tank : Tank := mkTank c2Params

/-- Parameters of a small well-formed witness tank: dimension 1, capacity 3. -/
def w2Params : Params :=
  { dim := 1
    dtypeName := "float32"
    default_sim_method := "COSINE"
    max_capacity := 3
    persist := false
    tank_name := "w2"
    meta_shm_single_size := 4096 }

/-- A well-formed witness tank with two live rows. -/
def w2Tank : Tank :=
  { tank_name := "w2"
    dim := 1
    max_capacity := 3
    persist := false
    sim_method := "COSINE"
    single_meta_size := 4096
    vectors := [[5], [7], [0]]
    metadata := ("params", MetaVal.pconf w2Params) ::
      numbered [[("g", "A")], [("g", "B")]]
    published := ("params", MetaVal.pconf w2Params) ::
      numbered [[("g", "A")], [("g", "B")]] }

/-- Parameters of a capacity-1 tank, for the full-tank scenario. -/
def c5Params : Params :=
  { dim := 1
    dtypeName := "float32"
    default_sim_method := "COSINE"
    max_capacity := 1
    persist := false
    tank_name := "c5"
    meta_shm_single_size := 4096 }

/-- A tank whose live count equals its capacity. -/
def c5FullTank : Tank :=
  { tank_name := "c5"
    dim := 1
    max_capacity := 1
    persist := false
    sim_method := "COSINE"
    single_meta_size := 4096
    vectors := [[3]]
    metadata := ("params", MetaVal.pconf c5Params) :: numbered [[("g", "A")]]
    published := ("params", MetaVal.pconf c5Params) :: numbered [[("g", "A")]] }

theorem natDigitsAux_fuel : ∀ f1 f2 n : Nat, n ≤ f1 → n ≤ f2 →
    natDigitsAux f1 n = natDigitsAux f2 n
  | 0, f2, n, h1, _ => by
    have hn : n = 0 := Nat.le_zero.mp h1
    subst hn
    cases f2 <;> rfl
  | _ + 1, f2, 0, _, _ => by cases f2 <;> rfl
  | _ + 1, 0, _ + 1, _, h2 => by omega
  | f1 + 1, f2 + 1, n + 1, h1, h2 => by
    have hdiv : (n + 1) / 10 ≤ n := by
      have := Nat.div_lt_self (Nat.succ_pos n) (by norm_num : (1 : Nat) < 10)
      omega
    rw [natDigitsAux, natDigitsAux,
      natDigitsAux_fuel f1 f2 ((n + 1) / 10) (by omega) (by omega)]

theorem natDigits_succ (n : Nat) :
    natDigits (n + 1) =
      natDigits ((n + 1) / 10) ++ [Char.ofNat (48 + (n + 1) % 10)] := by
  have hdiv : (n + 1) / 10 ≤ n := by
    have := Nat.div_lt_self (Nat.succ_pos n) (by norm_num : (1 : Nat) < 10)
    omega
  unfold natDigits
  rw [natDigitsAux,
    natDigitsAux_fuel n ((n + 1) / 10) ((n + 1) / 10) hdiv le_rfl]

theorem natDigits_all_digits (n : Nat) : ∀ c ∈ natDigits n, c.isDigit = true := by
  induction n using Nat.strong_induction_on with
  | _ n ih =>
    match n with
    | 0 => intro c hc; simp [natDigits, natDigitsAux] at hc
    | n + 1 =>
      intro c hc
      rw [natDigits_succ] at hc
      rcases List.mem_append.mp hc with h | h
      · exact ih ((n + 1) / 10) (Nat.div_lt_self (Nat.succ_pos n) (by norm_num)) c h
      · simp only [List.mem_singleton] at h
        subst h
        have hm : (n + 1) % 10 < 10 := Nat.mod_lt _ (by norm_num)
        generalize (n + 1) % 10 = m at hm ⊢
        interval_cases m <;> decide

theorem natDigits_ne_nil (n : Nat) (h : 1 ≤ n) : natDigits n ≠ [] := by
  match n, h with
  | n + 1, _ =>
    rw [natDigits_succ]
    simp

theorem natToDecimal_all_digits (n : Nat) :
    ∀ c ∈ (natToDecimal n).data, c.isDigit = true := by
  unfold natToDecimal
  split
  · intro c hc; simp only [String.data] at hc; simp at hc; subst hc; decide
  · exact natDigits_all_digits n

theorem isPySpace_of_digit (c : Char) (h : c.isDigit = true) :
    isPySpace c = false := by
  cases hs : isPySpace c
  · rfl
  · exfalso
    simp only [isPySpace, Bool.or_eq_true, decide_eq_true_eq] at hs
    rcases hs with ((((h1 | h1) | h1) | h1) | h1) | h1 <;> subst h1 <;> simp at h

theorem dropWhile_space_of_digits (l : List Char)
    (h : ∀ c ∈ l, c.isDigit = true) : l.dropWhile isPySpace = l := by
  cases l with
  | nil => rfl
  | cons c rest =>
    rw [List.dropWhile_cons, isPySpace_of_digit c (h c (by simp))]
    simp

theorem digitsUnd_of_digits :
    ∀ l : List Char, l ≠ [] → (∀ c ∈ l, c.isDigit = true) → digitsUnd l = true
  | [c], _, h => by simpa [digitsUnd] using h c (by simp)
  | c :: c2 :: rest, _, h => by
    have hc2 : c2 ≠ '_' := by
      intro e
      subst e
      have := h '_' (by simp)
      simp at this
    rw [digitsUnd, if_neg hc2]
    have htail := digitsUnd_of_digits (c2 :: rest) (by simp)
      (fun x hx => h x (List.mem_cons_of_mem c hx))
    simp [h c (by simp), htail]

theorem char_digit_toNat (d : Nat) (h : d < 10) :
    (Char.ofNat (48 + d)).toNat = 48 + d := by
  interval_cases d <;> decide

theorem digit_ne_underscore (c : Char) (h : c.isDigit = true) : c ≠ '_' := by
  intro e; subst e; simp at h

theorem digitsVal_aux (n : Nat) : ∀ a : Nat,
    (natDigits n).foldl (fun x c => x * 10 + (c.toNat - 48)) a =
      a * 10 ^ (natDigits n).length + n := by
  induction n using Nat.strong_induction_on with
  | _ n ih =>
    match n with
    | 0 => intro a; simp [natDigits, natDigitsAux]
    | n + 1 =>
      intro a
      rw [natDigits_succ, List.foldl_append,
        ih ((n + 1) / 10) (Nat.div_lt_self (Nat.succ_pos n) (by norm_num)) a]
      have hm : (n + 1) % 10 < 10 := Nat.mod_lt _ (by norm_num)
      simp only [List.foldl_cons, List.foldl_nil, List.length_append,
        List.length_singleton]
      rw [char_digit_toNat _ hm]
      have hqr : 10 * ((n + 1) / 10) + (n + 1) % 10 = n + 1 :=
        Nat.div_add_mod (n + 1) 10
      have : 48 + (n + 1) % 10 - 48 = (n + 1) % 10 := by omega
      rw [this, pow_succ]
      ring_nf
      omega

theorem digitsVal_natDigits (n : Nat) : digitsVal (natDigits n) = n := by
  unfold digitsVal
  rw [List.filter_eq_self.mpr, digitsVal_aux n 0]
  · ring
  · intro c hc
    simpa using digit_ne_underscore c (natDigits_all_digits n c hc)

theorem parsePyInt_natToDecimal (n : Nat) :
    parsePyInt (natToDecimal n) = some (n : Int) := by
  by_cases h0 : n = 0
  · subst h0; decide
  · have hd : ∀ c ∈ (natToDecimal n).data, c.isDigit = true :=
      natToDecimal_all_digits n
    have hdata : (natToDecimal n).data = natDigits n := by
      unfold natToDecimal
      rw [if_neg h0]
    rw [hdata] at hd
    have hne : natDigits n ≠ [] := natDigits_ne_nil n (Nat.one_le_iff_ne_zero.mpr h0)
    unfold parsePyInt
    rw [hdata, dropWhile_space_of_digits _ hd,
      dropWhile_space_of_digits _ (by intro c hc; exact hd c (by simpa using hc)),
      List.reverse_reverse]
    match hcs : natDigits n, hne with
    | c :: rest, _ =>
      have hc : c.isDigit = true := by rw [hcs] at hd; exact hd c (by simp)
      have hplus : c ≠ '+' := by intro e; subst e; simp at hc
      have hminus : c ≠ '-' := by intro e; subst e; simp at hc
      rw [parseDigitsSigned, if_neg hplus, if_neg hminus,
        if_pos (by rw [← hcs]; exact digitsUnd_of_digits _ hne (by rw [hcs] at hd ⊢; exact hd))]
      rw [← hcs, digitsVal_natDigits]

theorem natToDecimal_inj {a b : Nat} (h : natToDecimal a = natToDecimal b) :
    a = b := by
  have ha := parsePyInt_natToDecimal a
  have hb := parsePyInt_natToDecimal b
  rw [h, hb] at ha
  exact Int.ofNat_inj.mp (Option.some_injective _ ha).symm

theorem natToDecimal_ne_of_nondigit (n : Nat) (s : String) (c : Char)
    (hc : c ∈ s.data) (hnd : c.isDigit = false) : natToDecimal n ≠ s := by
  intro e
  have := natToDecimal_all_digits n c (by rw [e]; exact hc)
  rw [hnd] at this
  exact Bool.false_ne_true this

theorem natToDecimal_ne_params (n : Nat) : natToDecimal n ≠ "params" :=
  natToDecimal_ne_of_nondigit n "params" 'p' (by decide) (by decide)

theorem natToDecimal_ne_count (n : Nat) : natToDecimal n ≠ "count" :=
  natToDecimal_ne_of_nondigit n "count" 'c' (by decide) (by decide)

theorem pyGet_pySet_ne {α : Type} (d : List (String × α)) (k k2 : String)
    (v : α) (h : k2 ≠ k) : pyGet (pySet d k v) k2 = pyGet d k2 := by
  have hkk2 : ¬k = k2 := fun e => h e.symm
  induction d with
  | nil =>
    simp only [pySet, pyGet, if_neg hkk2]
  | cons e rest ih =>
    obtain ⟨k1, v1⟩ := e
    by_cases he : k1 = k
    · have he2 : ¬k1 = k2 := by rw [he]; exact hkk2
      simp only [pySet, if_pos he, pyGet, if_neg hkk2, if_neg he2]
    · simp only [pySet, if_neg he, pyGet]
      by_cases he2 : k1 = k2
      · rw [if_pos he2, if_pos he2]
      · rw [if_neg he2, if_neg he2, ih]

theorem pyGet_pySet_isSome {α : Type} (d : List (String × α)) (k k2 : String)
    (v : α) (h : (pyGet d k2).isSome = true) :
    (pyGet (pySet d k v) k2).isSome = true := by
  by_cases he : k2 = k
  · subst he
    induction d with
    | nil => simp [pySet, pyGet]
    | cons e rest ih =>
      obtain ⟨k1, v1⟩ := e
      by_cases h1 : k1 = k2
      · simp [pySet, pyGet, h1]
      · simp only [pyGet, if_neg h1] at h
        simp [pySet, pyGet, h1, ih h]
  · rw [pyGet_pySet_ne d k k2 v he]
    exact h

theorem pySet_of_pyGet_none {α : Type} (d : List (String × α)) (k : String)
    (v : α) (h : pyGet d k = none) : pySet d k v = d ++ [(k, v)] := by
  induction d with
  | nil => rfl
  | cons e rest ih =>
    obtain ⟨k1, v1⟩ := e
    simp only [pyGet] at h
    by_cases h1 : k1 = k
    · rw [if_pos h1] at h; cases h
    · rw [if_neg h1] at h
      simp [pySet, if_neg h1, ih h]

theorem length_numberedFrom (a : Nat) (ms : List Meta) :
    (numberedFrom a ms).length = ms.length := by
  induction ms generalizing a with
  | nil => rfl
  | cons m ms ih => simp [numberedFrom, ih]

theorem pyGet_numberedFrom_params (a : Nat) (ms : List Meta) :
    pyGet (numberedFrom a ms) "params" = none := by
  induction ms generalizing a with
  | nil => rfl
  | cons m ms ih =>
    simp [numberedFrom, pyGet, natToDecimal_ne_params (a + 1), ih]

theorem pyGet_numberedFrom (a : Nat) (ms : List Meta) (i : Nat)
    (h : i < ms.length) :
    pyGet (numberedFrom a ms) (natToDecimal (a + i + 1)) =
      some (MetaVal.user (ms.getD i [])) := by
  induction ms generalizing a i with
  | nil => simp at h
  | cons m ms ih =>
    cases i with
    | zero => simp [numberedFrom, pyGet]
    | succ j =>
      have hne : natToDecimal (a + 1) ≠ natToDecimal (a + (j + 1) + 1) := by
        intro e
        have := natToDecimal_inj e
        omega
      simp only [numberedFrom, pyGet, if_neg hne]
      have := ih (a + 1) j (by simpa using h)
      rw [show a + 1 + j + 1 = a + (j + 1) + 1 by omega] at this
      simpa using this

theorem pyGet_numberedFrom_none (a : Nat) (ms : List Meta) (j : Nat)
    (h : j ≤ a ∨ a + ms.length < j) :
    pyGet (numberedFrom a ms) (natToDecimal j) = none := by
  induction ms generalizing a with
  | nil => rfl
  | cons m ms ih =>
    have hne : natToDecimal (a + 1) ≠ natToDecimal j := by
      intro e
      have := natToDecimal_inj e
      simp only [List.length_cons] at h
      omega
    simp only [numberedFrom, pyGet, if_neg hne]
    apply ih (a + 1)
    simp only [List.length_cons] at h
    omega

theorem pySet_numberedFrom (a : Nat) (ms : List Meta) (i : Nat) (nm : Meta)
    (h : i < ms.length) :
    pySet (numberedFrom a ms) (natToDecimal (a + i + 1)) (MetaVal.user nm) =
      numberedFrom a (ms.set i nm) := by
  induction ms generalizing a i with
  | nil => simp at h
  | cons m ms ih =>
    cases i with
    | zero => simp [numberedFrom, pySet]
    | succ j =>
      have hne : natToDecimal (a + 1) ≠ natToDecimal (a + (j + 1) + 1) := by
        intro e
        have := natToDecimal_inj e
        omega
      simp only [numberedFrom, pySet, if_neg hne, List.set_cons_succ]
      have := ih (a + 1) j (by simpa using h)
      rw [show a + 1 + j + 1 = a + (j + 1) + 1 by omega] at this
      rw [this]

theorem numberedFrom_append (a : Nat) (ms : List Meta) (m : Meta) :
    numberedFrom a (ms ++ [m]) =
      numberedFrom a ms ++ [(natToDecimal (a + ms.length + 1), MetaVal.user m)] := by
  induction ms generalizing a with
  | nil => simp [numberedFrom]
  | cons m2 ms ih =>
    simp only [List.cons_append, numberedFrom, List.append_eq]
    rw [ih (a + 1)]
    simp only [List.length_cons, List.cons_append]
    rw [show a + 1 + ms.length + 1 = a + (ms.length + 1) + 1 by omega]

theorem argsortDesc_perm (s : List ℚ) :
    (argsortDesc s).Perm (List.range s.length) :=
  List.perm_insertionSort _ _

theorem argsortDesc_length (s : List ℚ) : (argsortDesc s).length = s.length := by
  rw [(argsortDesc_perm s).length_eq, List.length_range]

theorem argsortDesc_mem (s : List ℚ) (i : Nat) (h : i ∈ argsortDesc s) :
    i < s.length := by
  have := (argsortDesc_perm s).mem_iff.mp h
  simpa using this

theorem argsortDesc_nodup (s : List ℚ) : (argsortDesc s).Nodup :=
  ((argsortDesc_perm s).nodup_iff).mpr (List.nodup_range _)

/-- The index list produced by `argsortDesc` is strictly ordered: larger
score first, equal scores by ascending row index. -/
theorem argsortDesc_sorted (s : List ℚ) :
    List.Pairwise (fun a b =>
      s.getD a 0 > s.getD b 0 ∨ (s.getD a 0 = s.getD b 0 ∧ a < b))
      (argsortDesc s) := by
  have h1 : List.Pairwise (argRel s) (argsortDesc s) :=
    List.sorted_insertionSort _ _
  have h2 : List.Pairwise (fun a b : Nat => a ≠ b) (argsortDesc s) :=
    argsortDesc_nodup s
  refine (h1.and h2).imp ?_
  intro a b hab
  rcases hab with ⟨hlt | ⟨heq, hle⟩, hne⟩
  · exact Or.inl hlt
  · exact Or.inr ⟨heq, Nat.lt_of_le_of_ne hle hne⟩

/-- Every registered similarity function returns one score per row. -/
theorem SIM_METHODS_length (sq : ℚ → ℚ) (s : String)
    (f : List Vec → Vec → List ℚ) (h : SIM_METHODS sq s = some f)
    (V : List Vec) (q : Vec) : (f V q).length = V.length := by
  unfold SIM_METHODS at h
  split_ifs at h <;> cases h <;>
    simp [calc_inner, calc_cosine, calc_euclidean]

/-- Rebuild segment with no deleted key inside: entries keyed `a+1 ..
a+ms.length` are renumbered to start at `b+1`. -/
theorem deleteRebuild_no_hit (delKey : Int) (ms : List Meta) :
    ∀ a b : Nat, (∀ j : Nat, a < j → j ≤ a + ms.length → (j : Int) ≠ delKey) →
    deleteRebuild delKey (numberedFrom a ms) b = some (numberedFrom b ms) := by
  induction ms with
  | nil => intro a b _; rfl
  | cons m ms ih =>
    intro a b h
    have hkey : (((a + 1 : Nat) : Int)) ≠ delKey :=
      h (a + 1) (by omega) (by simp)
    simp only [numberedFrom, deleteRebuild,
      natToDecimal_ne_params (a + 1), natToDecimal_ne_count (a + 1), or_self,
      if_false, parsePyInt_natToDecimal, if_neg hkey]
    rw [ih (a + 1) (b + 1) (fun j h1 h2 => h j (by omega) (by simp; omega))]

/-- Rebuild with the deleted key at offset `j`: the surviving entries are the
old sequence with index `j` erased, renumbered densely. -/
theorem deleteRebuild_hit (ms : List Meta) :
    ∀ a j : Nat, j < ms.length →
    deleteRebuild ((a : Int) + j + 1) (numberedFrom a ms) a =
      some (numberedFrom a (ms.eraseIdx j)) := by
  induction ms with
  | nil => intro a j h; simp at h
  | cons m ms ih =>
    intro a j h
    cases j with
    | zero =>
      simp only [numberedFrom, deleteRebuild,
        natToDecimal_ne_params (a + 1), natToDecimal_ne_count (a + 1), or_self,
        if_false, parsePyInt_natToDecimal, List.eraseIdx_cons_zero]
      rw [if_pos (show (((a + 1 : Nat) : Int)) = (a : Int) + ((0 : Nat) : Int) + 1 by
        push_cast
        ring)]
      apply deleteRebuild_no_hit
      intro j h1 h2 e
      push_cast at e
      omega
    | succ j2 =>
      simp only [numberedFrom, deleteRebuild,
        natToDecimal_ne_params (a + 1), natToDecimal_ne_count (a + 1), or_self,
        if_false, parsePyInt_natToDecimal, List.eraseIdx_cons_succ]
      have hkey : ((a + 1 : Nat) : Int) ≠ (a : Int) + ((j2 + 1 : Nat) : Int) + 1 := by
        push_cast
        intro e
        omega
      rw [if_neg hkey]
      have hrec := ih (a + 1) j2 (by simpa using h)
      rw [show ((a + 1 : Nat) : Int) + (j2 : Int) + 1 =
        (a : Int) + ((j2 + 1 : Nat) : Int) + 1 by push_cast; ring] at hrec
      rw [hrec]

/-- `mapM` over `Option` succeeds pointwise. -/
theorem mapM_eq_some {α β : Type} (f : α → Option β) (g : α → β) :
    ∀ l : List α, (∀ x ∈ l, f x = some (g x)) → l.mapM f = some (l.map g) := by
  intro l
  induction l with
  | nil => intro _; rfl
  | cons x xs ih =>
    intro h
    rw [List.mapM_cons, h x (by simp), ih (fun y hy => h y (by simp [hy]))]
    rfl

/-- C5: on a tank whose live count equals its capacity, `add_vector` raises
the capacity error and leaves the tank entirely unchanged (so every stored
row, every metadata entry, and the live count are untouched); and
`add_vectors` with a well-formed batch that would push the live count past
capacity raises the same error with the tank unchanged — no row written, no
metadata entry added. -/
theorem c5_capacity_errors
    (sz : MetaDict → Nat) (t tb : Tank) (vec : Vec) (meta : Meta)
    (vecs : List Vec) (metas : List Meta)
    (hfull : lenTank t = t.max_capacity)
    (hdim : ∀ v ∈ vecs, v.length = tb.dim)
    (hlen : metas.length = vecs.length)
    (hover : lenTank tb + vecs.length > tb.max_capacity) :
    addVector sz t vec meta = (t, .error .capacityExceeded) ∧
    addVectors sz tb vecs metas none = (tb, .error .capacityExceeded) := by
  constructor
  · unfold addVector
    rw [if_pos (by omega)]
  · have h1 : (vecs.any fun v => v.length ≠ tb.dim) = false := by
      rw [List.any_eq_false]
      intro v hv
      simp [hdim v hv]
    unfold addVectors
    rw [if_neg (by rw [h1]; simp), if_neg (by simp [hlen]),
      if_neg (by simp), if_pos hover]

/-- Witness for C5 at concrete inputs: a full capacity-1 tank rejects a
further `add_vector`, and a 2-row batch on a 2-of-3 tank rejects the whole
batch, both leaving the tanks unchanged. -/
theorem c5_capacity_errors_witness :
    addVector szZero c5FullTank [9] [] =
      (c5FullTank, .error .capacityExceeded) ∧
    addVectors szZero w2Tank [[1], [2]] [[], []] none =
      (w2Tank, .error .capacityExceeded) :=
  c5_capacity_errors szZero c5FullTank w2Tank [9] [] [[1], [2]] [[], []]
    (by decide) (by decide) (by decide) (by decide)

/-- C2 (evaluation of the code at the failing input): on a tank one metadata
entry below its region budget, `add_vector` raises the serialization-overflow
error, yet the vector row has already been written and the in-process
metadata entry added, while the shared metadata regisry still holds only the
old mapping — the vector buffer and the published registry disagree. -/
theorem c2_overflow_partial_write :
    (addVector szBig c2Tank [5] [("k", "v")]).2 =
      .error .serializationOverflow ∧
    (addVector szBig c2Tank [5] [("k", "v")]).1.vectors.getD 0 [] = [5] ∧
    pyGet (addVector szBig c2Tank [5] [("k", "v")]).1.metadata "1" =
      some (.user [("k", "v")]) ∧
    (addVector szBig c2Tank [5] [("k", "v")]).1.published =
      initMetadata c2Params := by
  decide

theorem lenTank_numbered (t : Tank) (pv : MetaVal) (ms : List Meta)
    (h : t.metadata = ("params", pv) :: numbered ms) :
    lenTank t = ms.length := by
  simp [lenTank, h, numbered, length_numberedFrom]

theorem pyGet_params_head (pv : MetaVal) (ms : List Meta) :
    pyGet (("params", pv) :: numbered ms) "params" = some pv := by
  simp [pyGet]

theorem pyGet_cons_numbered (pv : MetaVal) (ms : List Meta) (i : Nat)
    (h : i < ms.length) :
    pyGet (("params", pv) :: numbered ms) (natToDecimal (i + 1)) =
      some (MetaVal.user (ms.getD i [])) := by
  have hne : ¬("params" = natToDecimal (i + 1)) :=
    fun e => natToDecimal_ne_params (i + 1) e.symm
  simp only [pyGet, if_neg hne]
  have := pyGet_numberedFrom 0 ms i h
  simpa using this

/-- The entry list `delete_keys` rebuilds from fetched values equals the dense
renumbering of the kept metadata sequence. -/
theorem numberedFrom_eq_build (ms : List Meta) : ∀ a : Nat,
    (List.range ms.length).map (fun i =>
      (natToDecimal (a + i + 1), (ms.map MetaVal.user).getD i (MetaVal.user []))) =
    numberedFrom a ms := by
  induction ms with
  | nil => intro a; rfl
  | cons m ms ih =>
    intro a
    rw [List.length_cons, List.range_succ_eq_map, List.map_cons, List.map_map,
      numberedFrom]
    congr 1
    rw [← ih (a + 1)]
    apply List.map_congr_left
    intro i _
    simp only [Function.comp_apply, Nat.succ_eq_add_one]
    rw [show a + (i + 1) + 1 = a + 1 + i + 1 by omega]
    rfl

/-- C3 counterexample: on a two-row tank, `delete_keys` with the single
unknown key "3" raises a KeyError-class failure instead of silently skipping
it (the claim predicts the empty found-subset back), and with the duplicated
present key "1" it returns the input list verbatim, not the subset actually
deleted. -/
theorem c3_counterexample :
    (deleteKeys szZero w2Tank ["3"]).2 = .error .keyError ∧
    (deleteKeys szZero w2Tank ["1", "1"]).2 = .ok ["1", "1"] := by
  decide

/-- C3 amended: `delete_keys` raises a KeyError-class failure when some key
is not a numeral (the `int()` `ValueError` is re-raised as `KeyError`) and
when some numeral denotes no live slot (tank unchanged), rather than silently
skipping unknown keys; on success it compacts the kept rows in order,
zero-fills the vacated tail of the live range, densely renumbers the
surviving metadata entries, and returns the input key list verbatim rather
than the subset found.  Single `delete` likewise raises `KeyError` on an
absent numeral key. -/
theorem c3_amended
    (sz : MetaDict → Nat) (t : Tank) (keysBad keysRange keys : List String)
    (js js2 : List Int) (ms : List Meta) (delKey : String) (dk : Int)
    (hbad : keysBad.mapM parsePyInt = none)
    (hjs1 : keysRange.mapM parsePyInt = some js)
    (hany : (js.map (fun k => k - 1)).any
      (fun i => i < 0 || (lenTank t : Int) ≤ i) = true)
    (hmeta : t.metadata = ("params", MetaVal.pconf (paramsOf t)) :: numbered ms)
    (hjs : keys.mapM parsePyInt = some js2)
    (hin : ∀ j ∈ js2, 1 ≤ j ∧ j ≤ (ms.length : Int))
    (hdk : parsePyInt delKey = some dk)
    (hdkout : dk < 1 ∨ (ms.length : Int) < dk) :
    deleteKeys sz t keysBad = (t, .error .keyError) ∧
    deleteKeys sz t keysRange = (t, .error .keyError) ∧
    delete sz t delKey = (t, .error .keyError) ∧
    (let delIdxs : List Int := js2.map (fun k => k - 1)
     let keep : List Nat := (List.range ms.length).filter
       (fun i => !(delIdxs.contains (Int.ofNat i)))
     let kept : List Meta := keep.map (fun i => ms.getD i [])
     let newMeta : MetaDict :=
       ("params", MetaVal.pconf (paramsOf t)) :: numbered kept
     let newV : List Vec := keep.map (fun i => t.vectors.getD i []) ++
       List.replicate (ms.length - keep.length) (List.replicate t.dim 0) ++
       t.vectors.drop ms.length
     deleteKeys sz t keys =
       (if sz newMeta > metaShmSize t then
          (withData t newV newMeta t.published, .error .serializationOverflow)
        else (withData t newV newMeta newMeta, .ok keys))) := by
  have hcount : lenTank t = ms.length := lenTank_numbered t _ ms hmeta
  refine ⟨?_, ?_, ?_, ?_⟩
  · simp only [deleteKeys, hbad]
  · simp only [deleteKeys, hjs1, hany, if_true]
  · simp only [delete, hdk]
    rw [if_pos (by rw [hcount]; omega)]
  · have hanyf : ((js2.map fun k => k - 1).any
        fun i => i < 0 || ((ms.length : Nat) : Int) ≤ i) = false := by
      rw [List.any_eq_false]
      intro i hi
      simp only [List.mem_map] at hi
      obtain ⟨j, hj, rfl⟩ := hi
      have hjr := hin j hj
      simp only [Bool.or_eq_true, decide_eq_true_eq, not_or]
      constructor
      · omega
      · omega
    simp only [deleteKeys, hjs, hcount, hanyf, Bool.false_eq_true, if_false]
    set keep : List Nat := (List.range ms.length).filter
      (fun i => !((js2.map fun k => k - 1).contains (Int.ofNat i))) with hkeep
    have hkeepmem : ∀ i ∈ keep, i < ms.length := by
      intro i hi
      rw [hkeep] at hi
      exact List.mem_range.mp (List.mem_of_mem_filter hi)
    have hparams : pyGet t.metadata "params" =
        some (MetaVal.pconf (paramsOf t)) := by
      rw [hmeta]; exact pyGet_params_head _ ms
    simp only [hparams]
    have hmapm : keep.mapM
        (fun oi => pyGet t.metadata (natToDecimal (oi + 1))) =
        some (keep.map (fun oi => MetaVal.user (ms.getD oi []))) := by
      apply mapM_eq_some
      intro oi hoi
      rw [hmeta]
      exact pyGet_cons_numbered _ ms oi (hkeepmem oi hoi)
    simp only [hmapm]
    have hentries : (List.range keep.length).map (fun i =>
        (natToDecimal (i + 1),
          (keep.map (fun oi => MetaVal.user (ms.getD oi []))).getD i
            (MetaVal.user []))) =
        numbered (keep.map (fun i => ms.getD i [])) := by
      have hb := numberedFrom_eq_build (keep.map (fun i => ms.getD i [])) 0
      rw [List.map_map] at hb
      simp only [List.length_map] at hb
      simpa [numbered, Function.comp] using hb
    simp only [hentries]
    unfold updateSharedMetadata
    simp only [metaShmSize]
    by_cases hov : sz (("params", MetaVal.pconf (paramsOf t)) ::
        numbered (keep.map (fun i => ms.getD i []))) >
        t.single_meta_size * t.max_capacity
    · rw [if_pos hov, if_pos hov]
      rfl
    · rw [if_neg hov, if_neg hov]
      rfl

/-- Witness for C3's amended statement at concrete inputs on the two-row
witness tank. -/
theorem c3_amended_witness :
    deleteKeys szZero w2Tank ["x"] = (w2Tank, .error .keyError) ∧
    deleteKeys szZero w2Tank ["5"] = (w2Tank, .error .keyError) ∧
    delete szZero w2Tank "0" = (w2Tank, .error .keyError) ∧
    (let delIdxs : List Int := [(1 : Int)].map (fun k => k - 1)
     let keep : List Nat := (List.range 2).filter
       (fun i => !(delIdxs.contains (Int.ofNat i)))
     let kept : List Meta := keep.map
       (fun i => [[("g", "A")], [("g", "B")]].getD i [])
     let newMeta : MetaDict :=
       ("params", MetaVal.pconf (paramsOf w2Tank)) :: numbered kept
     let newV : List Vec := keep.map (fun i => w2Tank.vectors.getD i []) ++
       List.replicate (2 - keep.length) (List.replicate w2Tank.dim 0) ++
       w2Tank.vectors.drop 2
     deleteKeys szZero w2Tank ["1"] =
       (if szZero newMeta > metaShmSize w2Tank then
          (withData w2Tank newV newMeta w2Tank.published,
            .error .serializationOverflow)
        else (withData w2Tank newV newMeta newMeta, .ok ["1"]))) :=
  c3_amended szZero w2Tank ["x"] ["5"] ["1"] [(5 : Int)] [(1 : Int)]
    [[("g", "A")], [("g", "B")]] "0" 0
    (by decide) (by decide) (by decide) (by decide) (by decide)
    (by decide) (by decide) (by decide)

/-- Publishing only changes the shared region, never the buffer or the
dict. -/
theorem updateSharedMetadata_cases (sz : MetaDict → Nat) (t2 t3 : Tank)
    (r : Except Err Unit) (h : updateSharedMetadata sz t2 = (t3, r)) :
    t3.vectors = t2.vectors ∧ t3.metadata = t2.metadata := by
  unfold updateSharedMetadata at h
  split at h
  · cases h
    exact ⟨rfl, rfl⟩
  · cases h
    exact ⟨rfl, rfl⟩

/-- C9 counterexample: on a tank with live keys, `update_vector` with the
non-numeric key "abc" raises a ValueError-class failure (`int(key)` fails
before any key lookup), which is not the KeyError-class failure the claim
asserts for every absent key string. -/
theorem c9_counterexample :
    (updateVector szZero w2Tank "abc" [0] none).2 = .error .valueError ∧
    Err.valueError ≠ Err.keyError := by
  decide

/-- C9 amended: `update_vector` raises a ValueError-class failure when the
key is not a Python integer literal; raises KeyError when the numeral's value
lies outside `1..live_count` (tank unchanged in both cases); and for the
canonical decimal key of a live slot with a correctly-dimensioned vector it
overwrites exactly that slot's row in place, replaces that key's metadata
entry exactly when `new_metadata` is provided, and leaves the metadata
mapping untouched when it is omitted. -/
theorem c9_amended
    (sz : MetaDict → Nat) (t : Tank) (badKey outKey : String) (ko : Int)
    (ms : List Meta) (j : Nat) (nv : Vec) (nm : Meta)
    (hbad : parsePyInt badKey = none)
    (hout : parsePyInt outKey = some ko)
    (houtr : ko < 1 ∨ (lenTank t : Int) < ko)
    (hmeta : t.metadata = ("params", MetaVal.pconf (paramsOf t)) :: numbered ms)
    (hj : 1 ≤ j) (hjn : j ≤ ms.length)
    (hdim : nv.length = t.dim) :
    updateVector sz t badKey nv none = (t, .error .valueError) ∧
    updateVector sz t outKey nv none = (t, .error .keyError) ∧
    ((updateVector sz t (natToDecimal j) nv none).1.vectors =
        t.vectors.set (j - 1) nv ∧
      (updateVector sz t (natToDecimal j) nv none).1.metadata = t.metadata) ∧
    ((updateVector sz t (natToDecimal j) nv (some nm)).1.vectors =
        t.vectors.set (j - 1) nv ∧
      (updateVector sz t (natToDecimal j) nv (some nm)).1.metadata =
        ("params", MetaVal.pconf (paramsOf t)) ::
          numbered (ms.set (j - 1) nm)) := by
  have hcount : lenTank t = ms.length := lenTank_numbered t _ ms hmeta
  have hparse : parsePyInt (natToDecimal j) = some (j : Int) :=
    parsePyInt_natToDecimal j
  have hcond : ¬((j : Int) - 1 < 0 ∨ (j : Int) - 1 ≥ (lenTank t : Int)) := by
    rw [hcount]
    omega
  have htoNat : ((j : Int) - 1).toNat = j - 1 := by omega
  refine ⟨?_, ?_, ?_, ?_⟩
  · simp only [updateVector, hbad]
  · simp only [updateVector, hout]
    rw [if_pos (by omega)]
  · simp only [updateVector, hparse, if_neg hcond, htoNat]
    rw [if_neg (show ¬(nv.length ≠ t.dim) from fun h => h hdim)]
    split
    all_goals rename_i t3 r heq
    all_goals exact ⟨(updateSharedMetadata_cases sz _ _ _ heq).1,
      (updateSharedMetadata_cases sz _ _ _ heq).2⟩
  · simp only [updateVector, hparse, if_neg hcond, htoNat]
    rw [if_neg (show ¬(nv.length ≠ t.dim) from fun h => h hdim)]
    have hset : pySet t.metadata (natToDecimal j) (MetaVal.user nm) =
        ("params", MetaVal.pconf (paramsOf t)) ::
          numbered (ms.set (j - 1) nm) := by
      rw [hmeta]
      have hne : ¬("params" = natToDecimal j) :=
        fun e => natToDecimal_ne_params j e.symm
      simp only [pySet, if_neg hne]
      have := pySet_numberedFrom 0 ms (j - 1) nm (by omega)
      rw [show 0 + (j - 1) + 1 = j by omega] at this
      rw [numbered, this, numbered]
    rw [hset]
    split
    all_goals rename_i t3 r heq
    all_goals exact ⟨(updateSharedMetadata_cases sz _ _ _ heq).1,
      (updateSharedMetadata_cases sz _ _ _ heq).2⟩

/-- Witness for C9's amended statement on the two-row witness tank. -/
theorem c9_amended_witness :
    updateVector szZero w2Tank "abc" [9] none =
      (w2Tank, .error .valueError) ∧
    updateVector szZero w2Tank "7" [9] none = (w2Tank, .error .keyError) ∧
    ((updateVector szZero w2Tank (natToDecimal 2) [9] none).1.vectors =
        w2Tank.vectors.set (2 - 1) [9] ∧
      (updateVector szZero w2Tank (natToDecimal 2) [9] none).1.metadata =
        w2Tank.metadata) ∧
    ((updateVector szZero w2Tank (natToDecimal 2) [9]
        (some [("g", "C")])).1.vectors = w2Tank.vectors.set (2 - 1) [9] ∧
      (updateVector szZero w2Tank (natToDecimal 2) [9]
        (some [("g", "C")])).1.metadata =
        ("params", MetaVal.pconf (paramsOf w2Tank)) ::
          numbered ([[("g", "A")], [("g", "B")]].set (2 - 1) [("g", "C")])) :=
  c9_amended szZero w2Tank "abc" "7" 7 [[("g", "A")], [("g", "B")]] 2 [9]
    [("g", "C")] (by decide) (by decide) (by decide) (by decide) (by decide)
    (by decide) (by decide)

theorem filterLoop_pred (f : MetaVal → Bool) : ∀ d : MetaDict,
    filterLoop (.cpred f) d =
      .ok ((d.filter (fun e => e.1 != "params" && f e.2)).map Prod.fst) := by
  intro d
  induction d with
  | nil => rfl
  | cons e rest ih =>
    obtain ⟨k, v⟩ := e
    by_cases hk : k = "params"
    · subst hk
      simp only [filterLoop, if_pos rfl, ih, List.filter_cons]
      simp
    · simp only [filterLoop, if_neg hk, ih, List.filter_cons]
      by_cases hf : f v
      · simp [hf, hk]
      · simp [hf, hk]

theorem filterLoop_dict (m : List (String × String)) : ∀ d : MetaDict,
    filterLoop (.cdict m) d =
      .ok ((d.filter (fun e => e.1 != "params" && dictMatches m e.2)).map
        Prod.fst) := by
  intro d
  induction d with
  | nil => rfl
  | cons e rest ih =>
    obtain ⟨k, v⟩ := e
    by_cases hk : k = "params"
    · subst hk
      simp only [filterLoop, if_pos rfl, ih, List.filter_cons]
      simp
    · simp only [filterLoop, if_neg hk, ih, List.filter_cons]
      by_cases hf : dictMatches m v
      · simp [hf, hk]
      · simp [hf, hk]

theorem filterLoop_other : ∀ d : MetaDict,
    filterLoop .cother d =
      if d.any (fun e => e.1 != "params") then .error .typeError
      else .ok [] := by
  intro d
  induction d with
  | nil => rfl
  | cons e rest ih =>
    obtain ⟨k, v⟩ := e
    by_cases hk : k = "params"
    · subst hk
      simp only [filterLoop, if_pos rfl, ih, List.any_cons]
      simp only [bne_self_eq_false, Bool.false_or]
      simp
    · have hkb : (k != "params") = true := by simp [hk]
      simp only [filterLoop, List.any_cons, if_neg hk, hkb, Bool.true_or]
      simp

/-- C8 counterexample: on a freshly created tank (only the reserved `params`
entry present), `filter_by_metadata` with a conditions value that is neither
`None`, a dict, nor a callable returns the empty list instead of raising the
type error the claim asserts for every such argument (the `TypeError` is only
raised when the iteration reaches a non-params entry). -/
theorem c8_counterexample :
    filterByMetadata (mkTank w2Params) Conditions.cother =
      (mkTank w2Params, .ok []) := by
  rfl

/-- C8 amended: with an equality map, `filter_by_metadata` returns exactly
the non-params keys whose metadata value has every field of the map equal to
the given value (the reserved `params` entry is never returned); with a
callable it returns exactly the non-params keys whose metadata satisfies the
predicate; `None` always yields the empty list; and any other conditions
value raises a type error exactly when the tank has at least one non-params
metadata entry, returning the empty list otherwise. -/
theorem c8_amended (t : Tank) (f : MetaVal → Bool)
    (m : List (String × String)) :
    filterByMetadata t (.cdict m) =
      (t, .ok ((t.metadata.filter
        (fun e => e.1 != "params" && dictMatches m e.2)).map Prod.fst)) ∧
    filterByMetadata t (.cpred f) =
      (t, .ok ((t.metadata.filter
        (fun e => e.1 != "params" && f e.2)).map Prod.fst)) ∧
    filterByMetadata t .cnone = (t, .ok []) ∧
    filterByMetadata t .cother =
      (t, if t.metadata.any (fun e => e.1 != "params") then
        .error .typeError else .ok []) := by
  refine ⟨?_, ?_, rfl, ?_⟩
  · rw [show filterByMetadata t (.cdict m) =
      (t, filterLoop (.cdict m) t.metadata) from rfl, filterLoop_dict]
  · rw [show filterByMetadata t (.cpred f) =
      (t, filterLoop (.cpred f) t.metadata) from rfl, filterLoop_pred]
  · rw [show filterByMetadata t .cother =
      (t, filterLoop .cother t.metadata) from rfl, filterLoop_other]

/-- C1: deleting the present key `k` (decimal string, `1 ≤ k ≤ n`) of a
well-formed tank with live count `n` shifts every live row at zero-based
index ≥ `k` down by one position, zero-fills the vacated row `n-1`, leaves
the rows before `k-1` and beyond the live range unchanged, and rebuilds the
metadata mapping so that exactly the `n-1` surviving entries are keyed by the
dense sequence `1..n-1` in order — every entry with former key greater than
`k` renumbered down by one, every entry with key less than `k` unchanged,
each surviving entry keeping the metadata value it had before. -/
theorem c1_delete_renumbers
    (sz : MetaDict → Nat) (t : Tank) (ms : List Meta) (k : Nat)
    (hmeta : t.metadata = ("params", MetaVal.pconf (paramsOf t)) :: numbered ms)
    (hk1 : 1 ≤ k) (hkn : k ≤ ms.length) :
    (delete sz t (natToDecimal k)).1.vectors =
      t.vectors.take (k - 1) ++ (t.vectors.drop k).take (ms.length - k) ++
        [List.replicate t.dim 0] ++ t.vectors.drop ms.length ∧
    (delete sz t (natToDecimal k)).1.metadata =
      ("params", MetaVal.pconf (paramsOf t)) ::
        numbered (ms.eraseIdx (k - 1)) := by
  have hcount : lenTank t = ms.length := lenTank_numbered t _ ms hmeta
  have hparse : parsePyInt (natToDecimal k) = some (k : Int) :=
    parsePyInt_natToDecimal k
  have hcond : ¬((k : Int) - 1 < 0 ∨
      (k : Int) - 1 ≥ ((ms.length : Nat) : Int)) := by omega
  have htoNat : ((k : Int) - 1).toNat = k - 1 := by omega
  have hparams : pyGet t.metadata "params" =
      some (MetaVal.pconf (paramsOf t)) := by
    rw [hmeta]; exact pyGet_params_head _ ms
  have hrebuild : deleteRebuild ((k : Int) - 1 + 1) t.metadata 0 =
      some (numbered (ms.eraseIdx (k - 1))) := by
    rw [hmeta]
    rw [show deleteRebuild ((k : Int) - 1 + 1)
        (("params", MetaVal.pconf (paramsOf t)) :: numbered ms) 0 =
        deleteRebuild ((k : Int) - 1 + 1) (numbered ms) 0 from by
      rw [deleteRebuild, if_pos (Or.inl rfl)]]
    rw [show ((k : Int) - 1 + 1) = ((0 : Nat) : Int) + ((k - 1 : Nat) : Int) + 1
      from by push_cast; omega]
    exact deleteRebuild_hit ms 0 (k - 1) (by omega)
  have hshift : shiftRows t.vectors (k - 1) (ms.length) t.dim =
      t.vectors.take (k - 1) ++ (t.vectors.drop k).take (ms.length - k) ++
        [List.replicate t.dim 0] ++ t.vectors.drop ms.length := by
    unfold shiftRows
    rw [show k - 1 + 1 = k by omega, show ms.length - 1 - (k - 1) = ms.length - k
      by omega]
  simp only [delete, hparse, hcount, if_neg hcond, htoNat, hparams, hrebuild]
  rw [← hshift]
  split
  all_goals rename_i t3 r heq
  all_goals exact ⟨(updateSharedMetadata_cases sz _ _ _ heq).1,
    (updateSharedMetadata_cases sz _ _ _ heq).2⟩

/-- Witness for C1 on the two-row witness tank: deleting key "1" shifts row 1
to row 0, zero-fills row 1, and renumbers the former key "2" to "1". -/
theorem c1_delete_renumbers_witness :
    ((delete szZero w2Tank (natToDecimal 1)).1.vectors =
      w2Tank.vectors.take 0 ++ (w2Tank.vectors.drop 1).take (2 - 1) ++
        [List.replicate w2Tank.dim 0] ++ w2Tank.vectors.drop 2 ∧
    (delete szZero w2Tank (natToDecimal 1)).1.metadata =
      ("params", MetaVal.pconf (paramsOf w2Tank)) ::
        numbered ([[("g", "A")], [("g", "B")]].eraseIdx 0)) :=
  c1_delete_renumbers szZero w2Tank [[("g", "A")], [("g", "B")]] 1
    (by decide) (by decide) (by decide)

theorem foldl_inv {α β : Type} (P : α → Prop) (step : α → β → α)
    (hstep : ∀ a b, P a → P (step a b)) :
    ∀ (l : List β) (a : α), P a → P (l.foldl step a) := by
  intro l
  induction l with
  | nil => intro a h; exact h
  | cons x xs ih =>
    intro a h
    exact ih _ (hstep a x h)

theorem foldl_params_isSome (step : Tank → Nat → Tank)
    (hstep : ∀ a b, (pyGet a.metadata "params").isSome = true →
      (pyGet (step a b).metadata "params").isSome = true)
    (l : List Nat) (a : Tank)
    (h : (pyGet a.metadata "params").isSome = true) :
    (pyGet (l.foldl step a).metadata "params").isSome = true :=
  foldl_inv _ step hstep l a h

/-- C10: every public tank operation — `add_vector`, `add_vectors`, `search`,
`update_vector`, `filter_by_metadata`, `delete`, `delete_keys`, `clear` —
preserves the presence of the reserved `params` metadata entry; the live
count is by definition the number of metadata entries minus that one reserved
entry; and after `clear` the live count is 0 while the `params` entry still
holds the tank's configuration record. -/
theorem c10_params_preserved
    (sz : MetaDict → Nat) (t : Tank) (p : Params)
    (vec : Vec) (meta : Meta) (vecs : List Vec) (metas : List Meta)
    (okeys : Option (List String)) (sq : ℚ → ℚ)
    (argsort : List ℚ → List Nat) (q : Vec) (tk : Nat)
    (sm : Option String) (key : String) (nv : Vec) (nm : Option Meta)
    (conds : Conditions) (dkeys : List String)
    (hP : pyGet t.metadata "params" = some (MetaVal.pconf p)) :
    lenTank t = t.metadata.length - 1 ∧
    (pyGet (addVector sz t vec meta).1.metadata "params").isSome = true ∧
    (pyGet (addVectors sz t vecs metas okeys).1.metadata "params").isSome
      = true ∧
    (search sq argsort t q tk sm).1 = t ∧
    (pyGet (updateVector sz t key nv nm).1.metadata "params").isSome = true ∧
    (filterByMetadata t conds).1 = t ∧
    (pyGet (delete sz t key).1.metadata "params").isSome = true ∧
    (pyGet (deleteKeys sz t dkeys).1.metadata "params").isSome = true ∧
    (clear sz t).1.metadata = [("params", MetaVal.pconf p)] ∧
    lenTank (clear sz t).1 = 0 := by
  have hPs : (pyGet t.metadata "params").isSome = true := by
    rw [hP]; rfl
  refine ⟨rfl, ?_, ?_, ?_, ?_, ?_, ?_, ?_, ?_, ?_⟩
  · simp only [addVector]
    split
    · exact hPs
    split
    · exact hPs
    split
    all_goals rename_i t3 r heq
    all_goals rw [(updateSharedMetadata_cases sz _ _ _ heq).2]
    all_goals exact pyGet_pySet_isSome _ _ _ _ hPs
  · simp only [addVectors]
    split
    · exact hPs
    split
    · exact hPs
    split
    · exact hPs
    split
    · exact hPs
    split
    all_goals rename_i t3 r heq
    all_goals rw [(updateSharedMetadata_cases sz _ _ _ heq).2]
    all_goals apply foldl_params_isSome
    all_goals first
    | exact hPs
    | (intro a b h
       exact pyGet_pySet_isSome _ _ _ _ h)
  · simp only [search]
    split
    · rfl
    split
    · rfl
    split
    · rfl
    rfl
  · cases nm with
    | none =>
      simp only [updateVector]
      split
      · exact hPs
      split
      · exact hPs
      split
      · exact hPs
      split
      all_goals rename_i t3 r heq
      all_goals rw [(updateSharedMetadata_cases sz _ _ _ heq).2]
      all_goals exact hPs
    | some nmv =>
      simp only [updateVector]
      split
      · exact hPs
      split
      · exact hPs
      split
      · exact hPs
      split
      all_goals rename_i t3 r heq
      all_goals rw [(updateSharedMetadata_cases sz _ _ _ heq).2]
      all_goals exact pyGet_pySet_isSome _ _ _ _ hPs
  · simp only [filterByMetadata]
    split
    · rfl
    rfl
  · simp only [delete]
    split
    · exact hPs
    split
    · exact hPs
    split
    · exact hPs
    rename_i pv hpv
    split
    · exact hPs
    rename_i entries hentries
    split
    all_goals rename_i t3 r heq
    all_goals rw [(updateSharedMetadata_cases sz _ _ _ heq).2]
    all_goals simp [pyGet]
  · simp only [deleteKeys]
    split
    · exact hPs
    split
    · exact hPs
    split
    · exact hPs
    rename_i pv hpv
    split
    · exact hPs
    rename_i vals hvals
    split
    all_goals rename_i t3 r heq
    all_goals rw [(updateSharedMetadata_cases sz _ _ _ heq).2]
    all_goals simp [pyGet]
  · simp only [clear]
    split
    all_goals rename_i t3 r heq
    all_goals rw [(updateSharedMetadata_cases sz _ _ _ heq).2]
    all_goals rw [hP]
    all_goals rfl
  · simp only [clear]
    split
    all_goals rename_i t3 r heq
    all_goals unfold lenTank
    all_goals rw [(updateSharedMetadata_cases sz _ _ _ heq).2]
    all_goals rfl

/-- Witness for C10 at concrete inputs on the two-row witness tank. -/
theorem c10_params_preserved_witness :
    lenTank w2Tank = w2Tank.metadata.length - 1 ∧
    (pyGet (addVector szZero w2Tank [1] []).1.metadata "params").isSome
      = true ∧
    (pyGet (addVectors szZero w2Tank [[1]] [[]] none).1.metadata
      "params").isSome = true ∧
    (search (fun x => x) argsortDesc w2Tank [1] 2 none).1 = w2Tank ∧
    (pyGet (updateVector szZero w2Tank "1" [4] none).1.metadata
      "params").isSome = true ∧
    (filterByMetadata w2Tank Conditions.cnone).1 = w2Tank ∧
    (pyGet (delete szZero w2Tank "1").1.metadata "params").isSome = true ∧
    (pyGet (deleteKeys szZero w2Tank ["2"]).1.metadata "params").isSome
      = true ∧
    (clear szZero w2Tank).1.metadata =
      [("params", MetaVal.pconf w2Params)] ∧
    lenTank (clear szZero w2Tank).1 = 0 :=
  c10_params_preserved szZero w2Tank w2Params [1] [] [[1]] [[]] none
    (fun x => x) argsortDesc [1] 2 none "1" [4] none Conditions.cnone ["2"]
    (by decide)

/-- `argsortDesc` is one inhabitant of the argsort contract. -/
theorem argsortDesc_meets_spec : ArgsortSpec argsortDesc := by
  intro s
  refine ⟨argsortDesc_perm s, (argsortDesc_sorted s).imp ?_⟩
  intro a b hab
  rcases hab with h | ⟨h, _⟩
  · exact le_of_lt h
  · exact le_of_eq h.symm

/-- What the argsort contract alone guarantees about `search`: the
dimension-mismatch error, the empty-tank result, one score per live row
(rows `0..n-1` only), and the returned indices — exactly `min top_k n` of
them, all live, in non-strictly descending score order.  The relative order
of equal scores depends on the library sort's implementation-defined tie
behavior and is therefore not characterized here. -/
theorem search_under_argsort_contract
    (sq : ℚ → ℚ) (argsort : List ℚ → List Nat) (t te : Tank)
    (qbad q qe : Vec) (top_k : Nat) (sm : Option String) (n : Nat)
    (f : List Vec → Vec → List ℚ)
    (hspec : ArgsortSpec argsort)
    (hbad : qbad.length ≠ t.dim)
    (hq : q.length = t.dim)
    (hte : lenTank te = 0) (hqe : qe.length = te.dim)
    (hn : lenTank t = n) (hn1 : 1 ≤ n) (hnv : n ≤ t.vectors.length)
    (hf : SIM_METHODS sq (pyLower (sm.getD t.sim_method)) = some f) :
    (search sq argsort t qbad top_k sm).2 = .error .invalidDimension ∧
    (search sq argsort te qe top_k sm).2 = .ok [] ∧
    (let scores := f (t.vectors.take n) q
     let idxs := (argsort scores).take top_k
     (search sq argsort t q top_k sm).2 = .ok (idxs.map (fun i =>
        (natToDecimal (i + 1), scores.getD i 0, t.vectors.getD i [],
          pyGet t.metadata (natToDecimal (i + 1))))) ∧
     scores.length = n ∧
     idxs.length = min top_k n ∧
     (∀ i ∈ idxs, i < n) ∧
     idxs.Pairwise (fun a b => scores.getD a 0 ≥ scores.getD b 0)) := by
  have hslen : (f (t.vectors.take n) q).length = n := by
    rw [SIM_METHODS_length sq _ f hf, List.length_take]
    omega
  obtain ⟨hperm, hsorted⟩ := hspec (f (t.vectors.take n) q)
  refine ⟨?_, ?_, ?_, ?_, ?_, ?_, ?_⟩
  · simp only [search, if_pos hbad]
  · simp only [search]
    rw [if_neg (show ¬(qe.length ≠ te.dim) from fun h => h hqe),
      if_pos hte]
  · simp only [search, hn]
    rw [if_neg (show ¬(q.length ≠ t.dim) from fun h => h hq),
      if_neg (show ¬(n = 0) by omega), hf]
  · exact hslen
  · rw [List.length_take, hperm.length_eq, List.length_range, hslen]
  · intro i hi
    have hmem := List.mem_of_mem_take hi
    have := List.mem_range.mp (hperm.mem_iff.mp hmem)
    omega
  · exact hsorted.sublist (List.take_sublist _ _)

theorem getD_take_append (l z : List Vec) (n i : Nat) (d : Vec)
    (hi : i < n) (hn : n ≤ l.length) :
    (l.take n ++ z).getD i d = l.getD i d := by
  rw [List.getD_eq_getElem?_getD, List.getD_eq_getElem?_getD,
    List.getElem?_append]
  have h1 : i < (l.take n).length := by
    simp only [List.length_take]
    omega
  rw [if_pos h1, List.getElem?_take, if_pos hi]

/-- C6: saving a well-formed tank (whose published region matches its dict,
as after any successful mutation) produces the two-part persistence record —
the live rows and the full metadata mapping including `params` — and
restoring from those two parts reconstructs the freshly built tank of the
recorded shape, whose ordered list of (key, vector, metadata) triples is
identical to the saved tank's; and a restore proceeds only when both parts
exist: with either the vector part or the metadata part missing, no tank is
restored from that prefix. -/
theorem c6_save_restore_roundtrip
    (sz : MetaDict → Nat) (t : Tank) (ms : List Meta)
    (x : Option MetaDict) (y : Option (List Vec))
    (hmeta : t.metadata = ("params", MetaVal.pconf (paramsOf t)) :: numbered ms)
    (hpub : t.published = t.metadata)
    (hlen : t.vectors.length = t.max_capacity)
    (hrows : ∀ v ∈ t.vectors, v.length = t.dim)
    (hcap : ms.length ≤ t.max_capacity)
    (hsz1 : sz (initMetadata (defaultCtorParams t.tank_name)) ≤
      t.single_meta_size * t.max_capacity)
    (hsz2 : sz t.metadata ≤ t.single_meta_size * t.max_capacity) :
    (savePair t).2 =
      some { npz := t.vectors.take (lenTank t), pkl := t.metadata } ∧
    restoreTank sz t.tank_name (some (t.vectors.take (lenTank t)))
      (some t.metadata) =
      some (freshRestored (paramsOf t) t.metadata
        (t.vectors.take (lenTank t))) ∧
    triples (freshRestored (paramsOf t) t.metadata
      (t.vectors.take (lenTank t))) = triples t ∧
    restoreTank sz t.tank_name none x = none ∧
    restoreTank sz t.tank_name y none = none := by
  have hparams : pyGet t.metadata "params" =
      some (MetaVal.pconf (paramsOf t)) := by
    rw [hmeta]; exact pyGet_params_head _ ms
  have hcount : lenTank t = ms.length := lenTank_numbered t _ ms hmeta
  have htakelen : (t.vectors.take (lenTank t)).length = ms.length := by
    simp only [List.length_take]
    omega
  refine ⟨?_, ?_, ?_, ?_, ?_⟩
  · simp only [savePair, hpub, hparams]
    rfl
  · simp only [restoreTank, hparams, paramsOf]
    rw [if_neg (by omega), if_neg (by omega),
      if_pos ⟨by omega, fun r hr => hrows r ((List.take_sublist _ _).mem hr)⟩]
  · unfold triples
    rw [show lenTank (freshRestored (paramsOf t) t.metadata
      (t.vectors.take (lenTank t))) = lenTank t from rfl]
    apply List.map_congr_left
    intro i hi
    have hilt : i < ms.length := by
      have := List.mem_range.mp hi
      omega
    simp only [freshRestored, paramsOf, Prod.mk.injEq, true_and, and_true]
    apply getD_take_append
    · omega
    · omega
  · rfl
  · cases y
    · rfl
    · rfl

/-- Witness for C6: the two-row witness tank round-trips, and partial pairs
restore nothing. -/
theorem c6_save_restore_roundtrip_witness :
    (savePair w2Tank).2 =
      some { npz := w2Tank.vectors.take (lenTank w2Tank),
             pkl := w2Tank.metadata } ∧
    restoreTank szZero w2Tank.tank_name
      (some (w2Tank.vectors.take (lenTank w2Tank)))
      (some w2Tank.metadata) =
      some (freshRestored (paramsOf w2Tank) w2Tank.metadata
        (w2Tank.vectors.take (lenTank w2Tank))) ∧
    triples (freshRestored (paramsOf w2Tank) w2Tank.metadata
      (w2Tank.vectors.take (lenTank w2Tank))) = triples w2Tank ∧
    restoreTank szZero w2Tank.tank_name none (some w2Tank.metadata) = none ∧
    restoreTank szZero w2Tank.tank_name
      (some (w2Tank.vectors.take (lenTank w2Tank))) none = none :=
  c6_save_restore_roundtrip szZero w2Tank [[("g", "A")], [("g", "B")]]
    (some w2Tank.metadata) (some (w2Tank.vectors.take (lenTank w2Tank)))
    (by decide) (by decide) (by decide) (by decide) (by decide) (by decide)
    (by decide)

/-- C7 (evaluation of the code at the failing input): with no tank named
"ghost" registered, a `log,ghost,hi` command observed by the polling loop
raises out of the `log` branch (the `tanks.get` returns `None` and the
attribute access has no surrounding `try`), terminating the loop with the
command buffer left uncleared — while an unrecognized verb, as the claim
describes, is ignored with the whole buffer cleared to zero, as is a
malformed-arity `create`. -/
theorem c7_log_crash_leaves_buffer :
    eventStep szZero { tanks := [] }
      (strBytes "log,ghost,hi" ++ List.replicate 20 0) = none ∧
    eventStep szZero { tanks := [] }
      (strBytes "frob,x" ++ List.replicate 20 0) =
      some ({ tanks := [] }, List.replicate 26 0) ∧
    eventStep szZero { tanks := [] }
      (strBytes "create,t1" ++ List.replicate 20 0) =
      some ({ tanks := [] }, List.replicate 29 0) := by
  decide

end VecTankModel
